import Mathlib

/-!
# Verification of the Turkey customs batch processor

A shallow embedding, in Lean 4, of the core logic of the repository:

* `src/lib/customs/distributor.ts` — the customs value allocation engine
  (`distributeCustomsValues`, `distributeBillableItems`);
* `src/lib/shiphero/quota.ts` — the dual-constraint quota manager
  (`QuotaManager`);
* `src/lib/db/cursor.ts` — the processing cursor (`updateProcessingCursor`,
  `getLatestOrderDate`);
* `src/lib/processor/order.ts` — the per-order state machine (`processOrder`);
* `src/lib/processor/batch.ts` — the batch orchestrator (`processBatch`).

Modelling conventions:

* Monetary amounts and prices are rationals (`ℚ`): the source stores them as
  decimal strings and computes on `parseFloat` results; a field such as
  `price : ℚ` models the value of `parseFloat(item.price || '0')`.
* Times are integer Unix milliseconds (`ℤ`); `Date.now()` becomes an explicit
  `now` argument.  The model is a discrete-event one: time advances only where
  the source explicitly sleeps (`waitForCredits`), every other operation takes
  zero time.
* `toFixed(2)` followed by `parseFloat` (the source formats every customs
  value with two decimals) is modelled by `round2`, rounding half up to a
  multiple of 1/100.
* `Math.random()`-generated weights are an explicit `weights : List ℚ`
  parameter (the source generates one weight per billable item).
* Remote mutations (`updateLineItemsCustomsValue`, `addOrderTag`) are oracles
  of type `Except String ℕ`: `.ok complexity` models a successful call with
  its reported cost, `.error msg` a call that throws.  `processOrder`
  additionally returns the list of remote calls it attempted, so that
  "no remote call is made" is a statement about the model.
-/

/-- Model of `Math.floor` on an exact rational. -/
def jsFloor (q : ℚ) : ℤ := ⌊q⌋

/-- Model of `Math.ceil` on an exact rational. -/
def jsCeil (q : ℚ) : ℤ := ⌈q⌉

/-- Model of `parseFloat(x.toFixed(2))`: round half up to a multiple of 1/100. -/
def round2 (q : ℚ) : ℚ := (⌊q * 100 + 1/2⌋ : ℚ) / 100

/-! ## The allocation engine, from `src/lib/customs/distributor.ts` -/

/-- A line item as consumed by the distributor.  `price` models
`parseFloat(item.price || '0')`. -/
structure LineItemInput where
  id : String
  sku : String
  price : ℚ
  quantity : ℕ
  deriving DecidableEq, Repr

/-- One allocation entry returned by the distributor.  `newCustomsValue`
models the parsed value of the two-decimal string the source returns. -/
structure CustomsDistribution where
  lineItemId : String
  newCustomsValue : ℚ
  isComplimentary : Bool
  deriving DecidableEq, Repr

/-- Minimum customs value per billable item (EUR), `MIN_ITEM_VALUE = 0.5`. -/
def MIN_ITEM_VALUE : ℚ := 1/2

/-- Maximum customs value per item (EUR), `MAX_ITEM_VALUE = 8.0`. -/
def MAX_ITEM_VALUE : ℚ := 8

/-- Maximum total customs value (EUR), `DEFAULT_MAX_TOTAL = 25.0`. -/
def DEFAULT_MAX_TOTAL : ℚ := 25

/-- The billable sublist: items with `parseFloat(price) > 0`. -/
def billableOf (lineItems : List LineItemInput) : List LineItemInput :=
  lineItems.filter (fun item => decide (0 < item.price))

/-- The complimentary sublist: items with `parseFloat(price) <= 0`. -/
def complimentaryOf (lineItems : List LineItemInput) : List LineItemInput :=
  lineItems.filter (fun item => decide (item.price ≤ 0))

/-- Initial per-item value: proportional share of `maxTotal` by weight,
clamped into `[MIN_ITEM_VALUE, MAX_ITEM_VALUE]` (distributor.ts lines
137-148). -/
def initialValue (totalWeight maxTotal w : ℚ) : ℚ :=
  max MIN_ITEM_VALUE (min MAX_ITEM_VALUE (w / totalWeight * maxTotal))

/-- The initial weighted distribution, as `(lineItemId, value)` pairs. -/
def initialDistribution (items : List LineItemInput) (weights : List ℚ)
    (maxTotal : ℚ) : List (String × ℚ) :=
  let totalWeight := weights.sum
  (items.zip weights).map (fun p => (p.1.id, initialValue totalWeight maxTotal p.2))

/-- Sum of the values of a working distribution. -/
def valuesSum (d : List (String × ℚ)) : ℚ := (d.map Prod.snd).sum

/-- Scale-down stage (distributor.ts lines 153-163): if the total exceeds
`maxTotal`, scale every value by `maxTotal / total`, clamped below at
`MIN_ITEM_VALUE`. -/
def scaleStage (maxTotal : ℚ) (d : List (String × ℚ)) : List (String × ℚ) :=
  let currentTotal := valuesSum d
  if maxTotal < currentTotal then
    d.map (fun p => (p.1, max MIN_ITEM_VALUE (p.2 * (maxTotal / currentTotal))))
  else d

/-- Redistribution stage (distributor.ts lines 168-185): if the total is
below `maxTotal - 0.01`, spread the remainder evenly over the items still
below `MAX_ITEM_VALUE - 0.01`, capping each at `MAX_ITEM_VALUE`. -/
def redistributeStage (maxTotal : ℚ) (d : List (String × ℚ)) : List (String × ℚ) :=
  let currentTotal := valuesSum d
  if currentTotal < maxTotal - 1/100 then
    let remaining := maxTotal - currentTotal
    let itemsNotAtMax := d.filter (fun p => decide (p.2 < MAX_ITEM_VALUE - 1/100))
    if 0 < itemsNotAtMax.length then
      let extraPerItem := remaining / itemsNotAtMax.length
      d.map (fun p =>
        if p.2 < MAX_ITEM_VALUE - 1/100 then
          (p.1, min MAX_ITEM_VALUE (p.2 + extraPerItem))
        else p)
    else d
  else d

/-- Stable insertion into a list sorted by descending value (models the
stable `sort((a, b) => b.value - a.value)` of the source). -/
def insertDesc (x : ℕ × ℚ) : List (ℕ × ℚ) → List (ℕ × ℚ)
  | [] => [x]
  | y :: rest => if y.2 ≤ x.2 then x :: y :: rest else y :: insertDesc x rest

/-- Stable sort by descending value. -/
def sortDescByValue : List (ℕ × ℚ) → List (ℕ × ℚ)
  | [] => []
  | x :: rest => insertDesc x (sortDescByValue rest)

/-- The per-item reductions performed by the final-correction loop
(distributor.ts lines 195-204): walk the items in descending value order,
reducing each by `min(remainingExcess, value - MIN_ITEM_VALUE)` until the
excess is gone.  Input and output pairs are `(original index, value)` and
`(original index, reduction)`. -/
def correctionReductions (excess : ℚ) : List (ℕ × ℚ) → List (ℕ × ℚ)
  | [] => []
  | (i, v) :: rest =>
    if excess ≤ 0 then []
    else
      let canReduce := v - MIN_ITEM_VALUE
      let reduction := min excess canReduce
      (i, reduction) :: correctionReductions (excess - reduction) rest

/-- Look up the reduction recorded for original index `i`. -/
def lookupRed : List (ℕ × ℚ) → ℕ → Option ℚ
  | [], _ => none
  | (j, r) :: rest, i => if j = i then some r else lookupRed rest i

/-- Apply the recorded reductions back to the distribution in original
order (the source mutates the shared objects through the sorted copy);
`k` is the index of the first element. -/
def applyReductions (reds : List (ℕ × ℚ)) : ℕ → List (String × ℚ) → List (String × ℚ)
  | _, [] => []
  | k, p :: rest =>
    let p' := match lookupRed reds k with
      | some r => (p.1, max MIN_ITEM_VALUE (p.2 - r))
      | none => p
    p' :: applyReductions reds (k + 1) rest

/-- Final-correction stage (distributor.ts lines 187-205): if the total still
exceeds `maxTotal`, remove the excess from the largest items first, never
below `MIN_ITEM_VALUE`. -/
def finalCorrectionStage (maxTotal : ℚ) (d : List (String × ℚ)) : List (String × ℚ) :=
  let currentTotal := valuesSum d
  if maxTotal < currentTotal then
    let indexed := (List.range d.length).zip d
    let sorted := sortDescByValue (indexed.map (fun p => (p.1, p.2.2)))
    let reds := correctionReductions (currentTotal - maxTotal) sorted
    applyReductions reds 0 d
  else d

/-- The source's `distributeBillableItems(billableItems, maxTotal)` with the random
weights made explicit (the source draws one weight per billable item). -/
def distributeBillableItems (billableItems : List LineItemInput) (maxTotal : ℚ)
    (weights : List ℚ) : List CustomsDistribution :=
  match billableItems with
  | [item] =>
    [{ lineItemId := item.id
       newCustomsValue := round2 (min maxTotal MAX_ITEM_VALUE)
       isComplimentary := false }]
  | items =>
    let d0 := initialDistribution items weights maxTotal
    let d1 := scaleStage maxTotal d0
    let d2 := redistributeStage maxTotal d1
    let d3 := finalCorrectionStage maxTotal d2
    d3.map (fun p => { lineItemId := p.1, newCustomsValue := round2 p.2, isComplimentary := false })

/-- The source's `distributeCustomsValues(lineItems, maxTotal)` with explicit weights. -/
def distributeCustomsValues (lineItems : List LineItemInput) (maxTotal : ℚ)
    (weights : List ℚ) : List CustomsDistribution :=
  if lineItems.length = 0 then []
  else
    let billableItems := billableOf lineItems
    let complimentaryItems := complimentaryOf lineItems
    if billableItems.length = 0 then
      lineItems.map (fun item =>
        { lineItemId := item.id, newCustomsValue := 0, isComplimentary := true })
    else
      distributeBillableItems billableItems maxTotal weights ++
        complimentaryItems.map (fun item =>
          { lineItemId := item.id, newCustomsValue := 0, isComplimentary := true })

/-- Sum of the non-complimentary allocation values (the quantity checked in
`processOrder` and `validateDistribution`). -/
def nonComplimentarySum (ds : List CustomsDistribution) : ℚ :=
  ((ds.filter (fun d => !d.isComplimentary)).map (fun d => d.newCustomsValue)).sum

/-! ## The quota manager, from `src/lib/shiphero/quota.ts` -/

/-- The source constant `MAX_CREDITS = 4004`. -/
def MAX_CREDITS : ℤ := 4004

/-- The source constant `REPLENISH_RATE = 60` credits per second. -/
def REPLENISH_RATE : ℤ := 60

/-- The source constant `MIN_CREDITS_BUFFER = 100`. -/
def MIN_CREDITS_BUFFER : ℤ := 100

/-- The source constant `MAX_REQUESTS_PER_WINDOW = 7000`. -/
def MAX_REQUESTS_PER_WINDOW : ℤ := 7000

/-- The source constant `REQUEST_WINDOW_MS = 5 * 60 * 1000`. -/
def REQUEST_WINDOW_MS : ℤ := 5 * 60 * 1000

/-- The source constant `MIN_REQUESTS_BUFFER = 100`. -/
def MIN_REQUESTS_BUFFER : ℤ := 100

/-- The mutable fields of the `QuotaManager` class.  Timestamps are Unix
milliseconds. -/
structure QuotaState where
  remainingCredits : ℤ
  lastUpdateTime : ℤ
  totalCreditsUsed : ℕ
  requestTimestamps : List ℤ
  deriving DecidableEq, Repr

namespace QuotaState

/-- Credits replenished since `lastUpdateTime`:
`Math.floor(((now - last) / 1000) * REPLENISH_RATE)`. -/
def replenished (s : QuotaState) (now : ℤ) : ℤ :=
  jsFloor (((now - s.lastUpdateTime : ℚ)) / 1000 * REPLENISH_RATE)

/-- The method `getRequestsInWindow()`: requests strictly newer than `now - 5 min`. -/
def getRequestsInWindow (s : QuotaState) (now : ℤ) : ℕ :=
  (s.requestTimestamps.filter (fun t => decide (now - REQUEST_WINDOW_MS < t))).length

/-- The method `trackRequest()`: drop timestamps outside the window, record `now`. -/
def trackRequest (s : QuotaState) (now : ℤ) : QuotaState :=
  { s with requestTimestamps :=
      (s.requestTimestamps.filter (fun t => decide (now - REQUEST_WINDOW_MS < t))) ++ [now] }

/-- Result of `canMakeRequest` / `canProceed`: `waitMs = none` models the
absent `waitMs` property of an `{ ok: true }` result. -/
structure QuotaCheck where
  ok : Bool
  waitMs : Option ℤ
  reason : Option String
  deriving DecidableEq, Repr

/-- The method `canMakeRequest()`: the rolling request-window constraint. -/
def canMakeRequest (s : QuotaState) (now : ℤ) : QuotaCheck :=
  let requestsInWindow : ℤ := s.getRequestsInWindow now
  let availableRequests := MAX_REQUESTS_PER_WINDOW - requestsInWindow
  if MIN_REQUESTS_BUFFER < availableRequests then ⟨true, none, none⟩
  else
    match s.requestTimestamps with
    | oldestRequest :: _ =>
      ⟨false, some (max 0 (oldestRequest + REQUEST_WINDOW_MS - now)), some "request_limit"⟩
    | [] => ⟨true, none, none⟩

/-- The method `canProceed(estimatedCost)`: request window first, then the replenished
credit estimate against `estimatedCost + MIN_CREDITS_BUFFER`. -/
def canProceed (s : QuotaState) (now : ℤ) (estimatedCost : ℤ) : QuotaCheck :=
  let requestCheck := s.canMakeRequest now
  if requestCheck.ok = false then requestCheck
  else
    let currentCredits := min MAX_CREDITS (s.remainingCredits + s.replenished now)
    let requiredCredits := estimatedCost + MIN_CREDITS_BUFFER
    if requiredCredits ≤ currentCredits then ⟨true, none, none⟩
    else
      let creditsNeeded := requiredCredits - currentCredits
      let waitSeconds := jsCeil ((creditsNeeded : ℚ) / REPLENISH_RATE)
      ⟨false, some (waitSeconds * 1000), some "insufficient_credits"⟩

/-- The method `updateFromResponse(complexity, remaining?)`: prefer the server-reported
remaining balance; otherwise estimate locally; always accumulate the total. -/
def updateFromResponse (s : QuotaState) (now : ℤ) (complexity : ℕ)
    (remaining : Option ℤ) : QuotaState :=
  match remaining with
  | some r =>
    { s with remainingCredits := r
             totalCreditsUsed := s.totalCreditsUsed + complexity
             lastUpdateTime := now }
  | none =>
    { s with remainingCredits :=
               min MAX_CREDITS (s.remainingCredits - complexity + s.replenished now)
             totalCreditsUsed := s.totalCreditsUsed + complexity
             lastUpdateTime := now }

/-- The method `waitForCredits(estimatedCost, maxWaitMs)`: returns the decision, the
state and the clock after the call.  A `waitMs` of `0` is falsy in the
source (`!check.waitMs`), hence also a refusal. -/
def waitForCredits (s : QuotaState) (now : ℤ) (estimatedCost : ℤ)
    (maxWaitMs : ℤ) : Bool × QuotaState × ℤ :=
  let check := s.canProceed now estimatedCost
  if check.ok then (true, s, now)
  else
    match check.waitMs with
    | none => (false, s, now)
    | some w =>
      if w = 0 then (false, s, now)
      else if maxWaitMs < w then (false, s, now)
      else
        let now' := now + w
        (true, updateFromResponse s now' 0 none, now')

/-- The `remaining` field of `getStatus()`. -/
def statusRemaining (s : QuotaState) (now : ℤ) : ℤ :=
  min MAX_CREDITS (s.remainingCredits + s.replenished now)

/-- The method `reset()`: restore both constraints, from any prior state. -/
def reset (_s : QuotaState) (now : ℤ) : QuotaState :=
  { remainingCredits := MAX_CREDITS
    lastUpdateTime := now
    totalCreditsUsed := 0
    requestTimestamps := [] }

end QuotaState

/-! ## The processing cursor, from `src/lib/db/cursor.ts` -/

/-- A row of the `processing_cursor` table (for the fixed cursor name). -/
structure CursorRow where
  lastProcessedDate : ℤ
  updatedAt : ℤ
  updatedByBatchId : Option String
  deriving DecidableEq, Repr

/-- The source's `updateProcessingCursor(newDate, batchId)`: update the row if present,
insert it otherwise — in both branches the persisted last-processed date
becomes `newDate` unconditionally. -/
def updateProcessingCursor (store : Option CursorRow) (newDate : ℤ) (now : ℤ)
    (batchId : String) : Option CursorRow :=
  match store with
  | some _ => some { lastProcessedDate := newDate, updatedAt := now,
                     updatedByBatchId := some batchId }
  | none => some { lastProcessedDate := newDate, updatedAt := now,
                   updatedByBatchId := some batchId }

/-- The source's `getLatestOrderDate(orders)`: `Math.max` of the order dates, capped to
`now` when more than one day in the future; for an empty list the source
returns `new Date()`, i.e. `now`. -/
def getLatestOrderDate (orderDates : List ℤ) (now : ℤ) : ℤ :=
  match orderDates with
  | [] => now
  | d :: ds =>
    let latest := ds.foldl max d
    let oneDayFromNow := now + 24 * 60 * 60 * 1000
    if oneDayFromNow < latest then now else latest

/-! ## The per-order state machine, from `src/lib/processor/order.ts` -/

/-- A shipping address; `none` components model absent fields. -/
structure Address where
  country_code : Option String
  country : Option String
  deriving DecidableEq, Repr

/-- An order as consumed by the processor.  `total_price` models
`parseFloat(order.total_price || '0')`; `order_date` is a millisecond
timestamp, `none` when the field is absent. -/
structure Order where
  id : String
  order_number : String
  total_price : ℚ
  shipping_address : Option Address
  tags : Option (List String)
  line_items : List LineItemInput
  order_date : Option ℤ
  deriving DecidableEq, Repr

/-- The expression `country_code || country`: the first truthy of the two (an empty string
is falsy in the source). -/
def effCountry (a : Address) : Option String :=
  match a.country_code with
  | some s => if s = "" then a.country else some s
  | none => a.country

/-- The helper `hasTag(order, tag)` from `src/lib/shiphero/orders.ts`. -/
def hasTag (o : Order) (tag : String) : Bool :=
  (o.tags.getD []).contains tag

/-- The helper `hasBillableItems(order)` from `src/lib/shiphero/orders.ts`. -/
def hasBillableItems (o : Order) : Bool :=
  o.line_items.any (fun item => decide (0 < item.price))

/-- The helper `getBillableLineItems(order)` from `src/lib/shiphero/orders.ts`. -/
def getBillableLineItems (o : Order) : List LineItemInput :=
  o.line_items.filter (fun item => decide (0 < item.price))

/-- The configuration the processor reads (`config.business`,
`config.features`). -/
structure Config where
  targetCountry : String
  maxCustomsValue : ℚ
  processedTag : String
  dryRun : Bool
  enableCustomsUpdate : Bool
  enableTagging : Bool
  deriving DecidableEq, Repr

/-- The source's `calculateEffectiveMaxTotal(order, defaultMaxTotal)`: `none` signals the
zero-or-negative-total skip. -/
def calculateEffectiveMaxTotal (o : Order) (defaultMaxTotal : ℚ) : Option ℚ :=
  if o.total_price ≤ 0 then none
  else if o.total_price < defaultMaxTotal then some o.total_price
  else some defaultMaxTotal

/-- Status of a `ProcessingResult`. -/
inductive PStatus where
  | processed
  | skipped
  | error
  deriving DecidableEq, Repr

/-- The result record returned by `processOrder`.  For a skip, `reason` is
the skip reason string of the source; for an error it is the caught
exception's message. -/
structure ProcessingResult where
  orderId : String
  orderNumber : String
  status : PStatus
  reason : Option String
  creditsUsed : ℕ
  deriving DecidableEq, Repr

/-- A remote mutation attempted by the processor. -/
inductive RemoteCall where
  | updateLineItems (orderId : String) (updates : List (String × ℚ))
  | addTag (orderId : String) (tag : String)
  deriving DecidableEq, Repr

/-- Message of the allocation-invariant exception (the source interpolates
the two amounts into the message; the model keeps it abstract). -/
def allocationViolationMsg : String :=
  "Customs distribution exceeds order total"

/-- A skip result. -/
def skipResult (o : Order) (reason : String) : ProcessingResult :=
  ⟨o.id, o.order_number, .skipped, some reason, 0⟩

/-- An error result (a caught exception converted by the `catch` block). -/
def errorResult (o : Order) (msg : String) (creditsUsed : ℕ) : ProcessingResult :=
  ⟨o.id, o.order_number, .error, some msg, creditsUsed⟩

/-- The source's `processOrder(order, context)` with the allocation weights and the two
remote-mutation outcomes made explicit.  Also returns the list of remote
calls attempted. -/
def processOrder (cfg : Config) (o : Order) (weights : List ℚ)
    (updRes tagRes : Except String ℕ) : ProcessingResult × List RemoteCall :=
  match o.shipping_address with
  | none => (skipResult o "missing_address", [])
  | some addr =>
    if effCountry addr ≠ some cfg.targetCountry then
      (skipResult o "not_turkey", [])
    else if hasTag o cfg.processedTag then
      (skipResult o "already_tagged", [])
    else if hasBillableItems o = false then
      (skipResult o "no_billable_items", [])
    else
      match calculateEffectiveMaxTotal o cfg.maxCustomsValue with
      | none => (skipResult o "zero_or_negative_total", [])
      | some effectiveMaxTotal =>
        let billableItems := getBillableLineItems o
        let distribution := distributeCustomsValues billableItems effectiveMaxTotal weights
        let total := nonComplimentarySum distribution
        if o.total_price + 1/100 < total then
          (errorResult o allocationViolationMsg 0, [])
        else
          let updCall := RemoteCall.updateLineItems o.id
            (distribution.map (fun d => (d.lineItemId, d.newCustomsValue)))
          let tagCall := RemoteCall.addTag o.id cfg.processedTag
          let afterUpdate := fun (calls : List RemoteCall) (credits1 : ℕ) =>
            if cfg.dryRun = false ∧ cfg.enableTagging = true then
              match tagRes with
              | .error e => (errorResult o e credits1, calls ++ [tagCall])
              | .ok c2 =>
                (⟨o.id, o.order_number, .processed, none, credits1 + c2⟩, calls ++ [tagCall])
            else (⟨o.id, o.order_number, .processed, none, credits1⟩, calls)
          if cfg.dryRun = false ∧ cfg.enableCustomsUpdate = true then
            match updRes with
            | .error e => (errorResult o e 0, [updCall])
            | .ok c1 => afterUpdate [updCall] c1
          else afterUpdate [] 0

/-! ## The batch orchestrator, from `src/lib/processor/batch.ts` -/

/-- Per-order inputs resolved by the environment: the random allocation
weights and the outcomes of the two remote mutations. -/
structure ProcOracle where
  weights : List ℚ
  updRes : Except String ℕ
  tagRes : Except String ℕ

/-- The counters and error list accumulated in the `BatchResult`. -/
structure BatchAcc where
  ordersQueried : ℕ
  ordersProcessed : ℕ
  ordersSkipped : ℕ
  errorsCount : ℕ
  errorDetails : List (String × String)
  creditsUsed : ℕ
  deriving DecidableEq, Repr

/-- The state threaded through the orchestrator's loops: the quota manager,
the clock, the counters and the order dates collected for the cursor. -/
structure LoopState where
  q : QuotaState
  now : ℤ
  acc : BatchAcc
  processedDates : List ℤ
  deriving DecidableEq, Repr

/-- Tally one `ProcessingResult` into the counters (batch.ts lines 260-279),
and collect the order date of a successfully processed order. -/
def tallyOrder (st : LoopState) (o : Order) (res : ProcessingResult) : LoopState :=
  let dates := match res.status, o.order_date with
    | .processed, some d => st.processedDates ++ [d]
    | _, _ => st.processedDates
  let acc := st.acc
  let acc :=
    match res.status with
    | .processed => { acc with ordersProcessed := acc.ordersProcessed + 1 }
    | .skipped => { acc with ordersSkipped := acc.ordersSkipped + 1 }
    | .error => { acc with errorsCount := acc.errorsCount + 1,
                           errorDetails := acc.errorDetails ++ [(res.orderId, res.orderNumber)] }
  { st with acc := { acc with creditsUsed := acc.creditsUsed + res.creditsUsed },
            processedDates := dates }

/-- The inner per-order loop (batch.ts lines 221-280).  A failed quota check
whose bounded wait is refused executes `break`: it ends this page's loop
only, returning the state unchanged. -/
def runOrders (cfg : Config) (oracle : Order → ProcOracle) :
    LoopState → List Order → LoopState
  | st, [] => st
  | st, o :: rest =>
    let quotaCheck := st.q.canProceed st.now 50
    let gate : Option LoopState :=
      if quotaCheck.ok then some st
      else
        match quotaCheck.waitMs with
        | some w =>
          if w ≠ 0 then
            let r := st.q.waitForCredits st.now 50 120000
            if r.1 then some { st with q := r.2.1, now := r.2.2 }
            else none
          else none
        | none => none
    match gate with
    | none => st
    | some st1 =>
      let orc := oracle o
      let pr := processOrder cfg o orc.weights orc.updRes orc.tagRes
      let st2 := { st1 with q := st1.q.updateFromResponse st1.now pr.1.creditsUsed none }
      runOrders cfg oracle (tallyOrder st2 o pr.1) rest

/-- The per-page loop (batch.ts lines 211-281): count the page's orders as
queried, then run the inner loop.  The `break` of the inner loop does not
stop this loop: every page of the generator is still consumed. -/
def runPages (cfg : Config) (oracle : Order → ProcOracle) :
    LoopState → List (List Order) → LoopState
  | st, [] => st
  | st, page :: rest =>
    let st1 := { st with acc :=
      { st.acc with ordersQueried := st.acc.ordersQueried + page.length } }
    runPages cfg oracle (runOrders cfg oracle st1 page) rest

/-- The per-filter loop (batch.ts lines 195-282): one paginated fetch per
configured fulfillment status. -/
def runFilters (cfg : Config) (oracle : Order → ProcOracle) :
    LoopState → List (List (List Order)) → LoopState
  | st, [] => st
  | st, pages :: rest => runFilters cfg oracle (runPages cfg oracle st pages) rest

/-- Status of a batch summary. -/
inductive BStatus where
  | running
  | completed
  | failed
  deriving DecidableEq, Repr

/-- The outcome of `processBatch()`: the summary counters, the terminal
status, the final quota state and clock, and the persisted cursor row. -/
structure BatchOutcome where
  acc : BatchAcc
  status : BStatus
  quota : QuotaState
  now : ℤ
  cursor : Option CursorRow
  processedDates : List ℤ
  deriving DecidableEq, Repr

/-- The source's `processBatch()` (batch.ts lines 117-376): reset the quota manager, run
every filter, mark the batch completed, then advance the cursor from the
dates of successfully processed orders — skipping the update when none
were processed.  `filters` lists, per fulfillment status, the pages the
paginated fetch yields. -/
def processBatch (cfg : Config) (oracle : Order → ProcOracle)
    (filters : List (List (List Order))) (q0 : QuotaState) (now0 : ℤ)
    (batchId : String) (cursor0 : Option CursorRow) : BatchOutcome :=
  let q1 := q0.reset now0
  let st0 : LoopState := ⟨q1, now0, ⟨0, 0, 0, 0, [], 0⟩, []⟩
  let st := runFilters cfg oracle st0 filters
  let cursor1 :=
    if st.processedDates.length = 0 then cursor0
    else updateProcessingCursor cursor0
      (getLatestOrderDate st.processedDates st.now) st.now batchId
  { acc := st.acc, status := .completed, quota := st.q, now := st.now,
    cursor := cursor1, processedDates := st.processedDates }

/-! ## Concrete fixtures used by counterexamples and witnesses -/

/-- Three billable items (the prices 50/30/20 of the repository's tests). -/
def itemsFifty : List LineItemInput :=
  [⟨"1", "PRODUCT-A", 50, 1⟩, ⟨"2", "PRODUCT-B", 30, 1⟩, ⟨"3", "PRODUCT-C", 20, 1⟩]

/-- One billable and one complimentary item. -/
def itemsMixed : List LineItemInput :=
  [⟨"1", "PRODUCT-A", 10, 1⟩, ⟨"2", "FREE-GIFT", 0, 1⟩]

/-- Two billable items. -/
def itemsTwo : List LineItemInput :=
  [⟨"a", "SHIRT-001", 10, 1⟩, ⟨"b", "PANTS-002", 20, 1⟩]

/-- The production-like configuration: Turkey, 25 EUR cap, mutations on. -/
def cfgStd : Config :=
  ⟨"TR", 25, "customs-processed", false, true, true⟩

/-- An eligible Turkey order with one billable line item. -/
def orderTR1 : Order :=
  ⟨"o1", "N1", 100, some ⟨some "TR", none⟩, some [], [⟨"li1", "SKU1", 89, 1⟩], some 500⟩

/-- A second eligible Turkey order. -/
def orderTR2 : Order :=
  ⟨"o2", "N2", 100, some ⟨some "TR", none⟩, some [], [⟨"li2", "SKU2", 89, 1⟩], some 600⟩

/-- A third eligible Turkey order. -/
def orderTR3 : Order :=
  ⟨"o3", "N3", 100, some ⟨some "TR", none⟩, some [], [⟨"li3", "SKU3", 89, 1⟩], some 700⟩

/-- An oracle whose update mutation reports a huge cost (20000 credits):
after one processed order the local credit estimate drops to `-15996`,
making the required replenish wait exceed the two-minute ceiling. -/
def oracleBigCost : Order → ProcOracle := fun _ => ⟨[1], .ok 20000, .ok 0⟩

/-- A quota state as left behind by `updateFromResponse 20000` on a fresh
manager at a frozen clock: deeply negative credits, blocked. -/
def qExhausted : QuotaState := ⟨-15996, 0, 20000, []⟩

/-! ## C1 — the cap does not dominate the per-item floor -/

/-- C1 (code bug exhibit): for three billable items and cap `0.5`, every
adjustment stage clamps at `MIN_ITEM_VALUE = 0.5`, so
`distributeCustomsValues` returns `0.50` per item — a non-complimentary sum
of `1.50`, exceeding `cap + 0.01 = 0.51`.  This contradicts the claimed
bound `Σ ≤ cap + 0.01` (and the repository's own test
`distributor.test.ts`, which on this very shape expects a total of at most
`0.51`, as well as `validateDistribution`, which flags such an output as
invalid). -/
theorem distributeCustomsValues_violates_cap_on_small_cap :
    nonComplimentarySum (distributeCustomsValues itemsFifty (1/2) [1, 1, 1]) = 3/2 ∧
    ¬ nonComplimentarySum (distributeCustomsValues itemsFifty (1/2) [1, 1, 1])
        ≤ 1/2 + 1/100 := by
  norm_num [nonComplimentarySum, distributeCustomsValues, distributeBillableItems,
    billableOf, complimentaryOf, initialDistribution, initialValue, valuesSum,
    scaleStage, redistributeStage, finalCorrectionStage, sortDescByValue, insertDesc,
    correctionReductions, lookupRed, applyReductions, round2, itemsFifty,
    MIN_ITEM_VALUE, MAX_ITEM_VALUE]

/-! ## C3 — `getLatestOrderDate` on an empty list -/

/-- C3 (counterexample): on an empty list `getLatestOrderDate` returns the
current time, not a no-movement sentinel: persisting it through
`updateProcessingCursor` advances a watermark of `500` to `1000 = now`. -/
theorem getLatestOrderDate_empty_advances_cursor :
    getLatestOrderDate [] 1000 = 1000 ∧
    updateProcessingCursor (some ⟨500, 0, none⟩) (getLatestOrderDate [] 1000) 1000 "batch-1"
      = some ⟨1000, 1000, some "batch-1"⟩ ∧
    (500 : ℤ) < 1000 := by
  refine ⟨rfl, rfl, by norm_num⟩

/-- C3 (amended): `getLatestOrderDate([])` does not throw and returns `now`
(the source's `new Date()`); persisted through `updateProcessingCursor` it
sets the watermark to `now`.  The no-movement behaviour on an empty batch
comes from `processBatch`, which skips the cursor update instead. -/
theorem getLatestOrderDate_empty_eq_now (now : ℤ) (cur : Option CursorRow)
    (batchId : String) :
    getLatestOrderDate [] now = now ∧
    updateProcessingCursor cur (getLatestOrderDate [] now) now batchId =
      some ⟨now, now, some batchId⟩ := by
  refine ⟨rfl, ?_⟩
  cases cur <;> rfl

/-! ## C4 — the persisted cursor is last-write-wins, not `max` -/

/-- C4 (counterexample): updating a cursor at `1000` with `newDate = 500`
persists `500`, not `max 1000 500 = 1000`: the watermark regresses. -/
theorem updateProcessingCursor_regresses :
    updateProcessingCursor (some ⟨1000, 0, none⟩) 500 600 "batch-2"
      = some ⟨500, 600, some "batch-2"⟩ ∧
    max (1000 : ℤ) 500 ≠ 500 := by
  refine ⟨rfl, by norm_num⟩

/-- C4 (amended): `updateProcessingCursor` persists `newDate`
unconditionally (last write wins), whether or not a row existed. -/
theorem updateProcessingCursor_last_write_wins (store : Option CursorRow)
    (newDate now : ℤ) (batchId : String) :
    updateProcessingCursor store newDate now batchId =
      some ⟨newDate, now, some batchId⟩ := by
  cases store <;> rfl

/-! ## C8 — `reset` restores the full quota from any prior state -/

/-- C8: after `reset()`, from any prior state: the observable remaining
balance at the reset instant equals `MAX_CREDITS`, the raw credit field
equals `MAX_CREDITS`, the rolling request-window count is `0` at every
observation time, and the total credits used is `0`. -/
theorem QuotaState.reset_restores_full_quota (s : QuotaState) (now t : ℤ) :
    ((s.reset now).statusRemaining now = MAX_CREDITS) ∧
    (s.reset now).remainingCredits = MAX_CREDITS ∧
    (s.reset now).getRequestsInWindow t = 0 ∧
    (s.reset now).totalCreditsUsed = 0 := by
  refine ⟨?_, rfl, rfl, rfl⟩
  have h0 : ((now : ℚ) - (now : ℚ)) / 1000 * REPLENISH_RATE = 0 := by
    rw [sub_self]; ring
  simp only [QuotaState.statusRemaining, QuotaState.reset, QuotaState.replenished, jsFloor, h0]
  norm_num [MAX_CREDITS]

/-! ## C5 — rule order: wrong destination wins over the idempotency tag -/

/-- C5: for every order whose destination differs from the target and that
also already carries the idempotency tag, `processOrder` skips with the
wrong-destination reason `"not_turkey"`, not `"already_tagged"`. -/
theorem processOrder_wrong_destination_wins (cfg : Config) (o : Order)
    (weights : List ℚ) (updRes tagRes : Except String ℕ) (addr : Address)
    (haddr : o.shipping_address = some addr)
    (hcountry : effCountry addr ≠ some cfg.targetCountry)
    (htag : hasTag o cfg.processedTag = true) :
    (processOrder cfg o weights updRes tagRes).1.status = .skipped ∧
    (processOrder cfg o weights updRes tagRes).1.reason = some "not_turkey" := by
  simp [processOrder, haddr, hcountry, skipResult]

/-- An order shipping to Germany that already carries the idempotency tag. -/
def orderWrongDestTagged : Order :=
  ⟨"o5", "N5", 100, some ⟨some "DE", none⟩, some ["customs-processed"],
    [⟨"li5", "SKU5", 10, 1⟩], none⟩

/-- C5 (witness): the Germany-bound, already-tagged order is skipped as
`"not_turkey"`. -/
theorem processOrder_wrong_destination_wins_witness :
    (processOrder cfgStd orderWrongDestTagged [] (.ok 0) (.ok 0)).1.status = .skipped ∧
    (processOrder cfgStd orderWrongDestTagged [] (.ok 0) (.ok 0)).1.reason =
      some "not_turkey" :=
  processOrder_wrong_destination_wins cfgStd orderWrongDestTagged [] (.ok 0) (.ok 0)
    ⟨some "DE", none⟩ rfl (by decide) (by decide)

/-! ## C7 — nonpositive total: skip, zero credits, no remote calls -/

/-- C7: an order that passes the destination, tag and billable-items gates
but has `total_price ≤ 0` is skipped with reason
`"zero_or_negative_total"`, consumes `0` credits, and attempts no remote
call. -/
theorem processOrder_nonpositive_total_skips (cfg : Config) (o : Order)
    (weights : List ℚ) (updRes tagRes : Except String ℕ) (addr : Address)
    (haddr : o.shipping_address = some addr)
    (hcountry : effCountry addr = some cfg.targetCountry)
    (htag : hasTag o cfg.processedTag = false)
    (hbill : hasBillableItems o = true)
    (htotal : o.total_price ≤ 0) :
    (processOrder cfg o weights updRes tagRes).1.status = .skipped ∧
    (processOrder cfg o weights updRes tagRes).1.reason = some "zero_or_negative_total" ∧
    (processOrder cfg o weights updRes tagRes).1.creditsUsed = 0 ∧
    (processOrder cfg o weights updRes tagRes).2 = [] := by
  simp [processOrder, haddr, hcountry, htag, hbill, calculateEffectiveMaxTotal,
    htotal, skipResult]

/-- A Turkey order with a billable item but a zero total. -/
def orderZeroTotal : Order :=
  ⟨"o7", "N7", 0, some ⟨some "TR", none⟩, none, [⟨"li7", "SKU7", 5, 1⟩], none⟩

/-- C7 (witness): the zero-total Turkey order is skipped with reason
`"zero_or_negative_total"`, zero credits, no remote calls. -/
theorem processOrder_nonpositive_total_skips_witness :
    (processOrder cfgStd orderZeroTotal [] (.ok 0) (.ok 0)).1.status = .skipped ∧
    (processOrder cfgStd orderZeroTotal [] (.ok 0) (.ok 0)).1.reason =
      some "zero_or_negative_total" ∧
    (processOrder cfgStd orderZeroTotal [] (.ok 0) (.ok 0)).1.creditsUsed = 0 ∧
    (processOrder cfgStd orderZeroTotal [] (.ok 0) (.ok 0)).2 = [] :=
  processOrder_nonpositive_total_skips cfgStd orderZeroTotal [] (.ok 0) (.ok 0)
    ⟨some "TR", none⟩ rfl (by decide) (by decide) (by decide) (by norm_num [orderZeroTotal])

/-! ## C6 — allocation invariant violations and mutation exceptions become
error results -/

/-- C6: for an order that reaches the allocation step (gates passed,
positive total with effective cap `effMax`): (a) if the allocated
non-complimentary sum exceeds the order total by more than `0.01`, the
result is a hard `error` with no credits used and no remote call attempted;
(b) if the sum is within bounds but the line-item update mutation throws,
the exception is caught and converted to an `error` result (credits `0`);
(c) if the update succeeds with cost `c` and the tag mutation throws, the
result is an `error` with `creditsUsed = c`.  In every case `processOrder`
returns a result instead of propagating the exception. -/
theorem processOrder_error_paths (cfg : Config) (o : Order) (weights : List ℚ)
    (updRes tagRes : Except String ℕ) (addr : Address) (effMax : ℚ)
    (haddr : o.shipping_address = some addr)
    (hcountry : effCountry addr = some cfg.targetCountry)
    (htag : hasTag o cfg.processedTag = false)
    (hbill : hasBillableItems o = true)
    (heff : calculateEffectiveMaxTotal o cfg.maxCustomsValue = some effMax) :
    (o.total_price + 1/100 <
        nonComplimentarySum (distributeCustomsValues (getBillableLineItems o) effMax weights) →
      (processOrder cfg o weights updRes tagRes).1.status = .error ∧
      (processOrder cfg o weights updRes tagRes).1.creditsUsed = 0 ∧
      (processOrder cfg o weights updRes tagRes).2 = []) ∧
    (nonComplimentarySum (distributeCustomsValues (getBillableLineItems o) effMax weights)
        ≤ o.total_price + 1/100 →
      cfg.dryRun = false → cfg.enableCustomsUpdate = true →
      ∀ e, updRes = .error e →
        (processOrder cfg o weights updRes tagRes).1.status = .error ∧
        (processOrder cfg o weights updRes tagRes).1.creditsUsed = 0) ∧
    (nonComplimentarySum (distributeCustomsValues (getBillableLineItems o) effMax weights)
        ≤ o.total_price + 1/100 →
      cfg.dryRun = false → cfg.enableCustomsUpdate = true → cfg.enableTagging = true →
      ∀ c e, updRes = .ok c → tagRes = .error e →
        (processOrder cfg o weights updRes tagRes).1.status = .error ∧
        (processOrder cfg o weights updRes tagRes).1.creditsUsed = c) := by
  refine ⟨?_, ?_, ?_⟩
  · intro h1
    have h1i : o.total_price + (100 : ℚ)⁻¹ <
        nonComplimentarySum (distributeCustomsValues (getBillableLineItems o) effMax weights) := by
      rw [← one_div]; exact h1
    simp [processOrder, haddr, hcountry, htag, hbill, heff, h1i, errorResult]
  · intro h2 hdry hupd e hupdE
    have h2i : ¬ (o.total_price + (100 : ℚ)⁻¹ <
        nonComplimentarySum (distributeCustomsValues (getBillableLineItems o) effMax weights)) := by
      rw [← one_div]; exact not_lt.mpr h2
    simp [processOrder, haddr, hcountry, htag, hbill, heff, h2i, hdry, hupd,
      hupdE, errorResult]
  · intro h2 hdry hupd htagging c e hupdOk htagE
    have h2i : ¬ (o.total_price + (100 : ℚ)⁻¹ <
        nonComplimentarySum (distributeCustomsValues (getBillableLineItems o) effMax weights)) := by
      rw [← one_div]; exact not_lt.mpr h2
    simp [processOrder, haddr, hcountry, htag, hbill, heff, h2i, hdry, hupd,
      htagging, hupdOk, htagE, errorResult]

/-- A Turkey order whose total, `0.30`, is below what the per-item floor
forces onto its three billable items: the allocation invariant is violated. -/
def orderLowTotal : Order :=
  ⟨"o6", "N6", 3/10, some ⟨some "TR", none⟩, some [],
    [⟨"1", "PRODUCT-A", 50, 1⟩, ⟨"2", "PRODUCT-B", 30, 1⟩, ⟨"3", "PRODUCT-C", 20, 1⟩],
    none⟩

/-- C6 (witness): on the low-total order the allocated sum (`1.50`) exceeds
the order total plus `0.01`, and `processOrder` returns a hard error with
zero credits and no remote calls. -/
theorem processOrder_error_paths_witness :
    (processOrder cfgStd orderLowTotal [1, 1, 1] (.ok 0) (.ok 0)).1.status = .error ∧
    (processOrder cfgStd orderLowTotal [1, 1, 1] (.ok 0) (.ok 0)).1.creditsUsed = 0 ∧
    (processOrder cfgStd orderLowTotal [1, 1, 1] (.ok 0) (.ok 0)).2 = [] :=
  (processOrder_error_paths cfgStd orderLowTotal [1, 1, 1] (.ok 0) (.ok 0)
    ⟨some "TR", none⟩ (3/10) rfl (by decide) (by decide) (by decide)
    (by norm_num [calculateEffectiveMaxTotal, orderLowTotal, cfgStd])).1
    (by norm_num [orderLowTotal, cfgStd, getBillableLineItems, nonComplimentarySum,
      distributeCustomsValues, distributeBillableItems, billableOf, complimentaryOf,
      initialDistribution, initialValue, valuesSum, scaleStage, redistributeStage,
      finalCorrectionStage, sortDescByValue, insertDesc, correctionReductions,
      lookupRed, applyReductions, round2, MIN_ITEM_VALUE, MAX_ITEM_VALUE])

/-! ## C9 — per-item bounds of the multi-item distribution -/

/-- Every value of the initial weighted distribution lies in
`[MIN_ITEM_VALUE, MAX_ITEM_VALUE]` (both clamps are applied). -/
theorem mem_initialDistribution_bounds {items : List LineItemInput}
    {weights : List ℚ} {maxTotal : ℚ} {p : String × ℚ}
    (hp : p ∈ initialDistribution items weights maxTotal) :
    MIN_ITEM_VALUE ≤ p.2 ∧ p.2 ≤ MAX_ITEM_VALUE := by
  simp only [initialDistribution, List.mem_map] at hp
  obtain ⟨q, _, rfl⟩ := hp
  refine ⟨le_max_left _ _, ?_⟩
  exact max_le (by norm_num [MIN_ITEM_VALUE, MAX_ITEM_VALUE]) (min_le_left _ _)

/-- A working distribution whose values are all at least `MIN_ITEM_VALUE`
and which has a member has a positive total. -/
theorem valuesSum_pos {d : List (String × ℚ)} {p : String × ℚ}
    (h : ∀ q ∈ d, MIN_ITEM_VALUE ≤ q.2) (hp : p ∈ d) : 0 < valuesSum d := by
  have hmem : p.2 ∈ d.map Prod.snd := List.mem_map_of_mem _ hp
  have hle : p.2 ≤ (d.map Prod.snd).sum := by
    refine List.single_le_sum (fun x hx => ?_) _ hmem
    obtain ⟨q, hq, rfl⟩ := List.mem_map.mp hx
    have hq2 := h q hq
    norm_num [MIN_ITEM_VALUE] at hq2
    linarith
  have hp2 := h p hp
  norm_num [MIN_ITEM_VALUE] at hp2
  unfold valuesSum
  linarith

/-- The scale-down stage preserves the per-item bounds. -/
theorem mem_scaleStage_bounds {maxTotal : ℚ} {d : List (String × ℚ)}
    (h : ∀ q ∈ d, MIN_ITEM_VALUE ≤ q.2 ∧ q.2 ≤ MAX_ITEM_VALUE) :
    ∀ p ∈ scaleStage maxTotal d, MIN_ITEM_VALUE ≤ p.2 ∧ p.2 ≤ MAX_ITEM_VALUE := by
  intro p hp
  simp only [scaleStage] at hp
  split at hp
  case isTrue hc =>
    obtain ⟨q, hq, rfl⟩ := List.mem_map.mp hp
    refine ⟨le_max_left _ _, ?_⟩
    have ht : 0 < valuesSum d := valuesSum_pos (fun r hr => (h r hr).1) hq
    have hdiv : maxTotal / valuesSum d ≤ 1 := (div_le_one ht).mpr (le_of_lt hc)
    have hq0 : (0 : ℚ) ≤ q.2 := by
      have := (h q hq).1
      norm_num [MIN_ITEM_VALUE] at this
      linarith
    refine max_le (by norm_num [MIN_ITEM_VALUE, MAX_ITEM_VALUE]) ?_
    calc q.2 * (maxTotal / valuesSum d) ≤ q.2 * 1 := by
          exact mul_le_mul_of_nonneg_left hdiv hq0
      _ = q.2 := mul_one _
      _ ≤ MAX_ITEM_VALUE := (h q hq).2
  case isFalse => exact h p hp

/-- The redistribution stage preserves the per-item bounds. -/
theorem mem_redistributeStage_bounds {maxTotal : ℚ} {d : List (String × ℚ)}
    (h : ∀ q ∈ d, MIN_ITEM_VALUE ≤ q.2 ∧ q.2 ≤ MAX_ITEM_VALUE) :
    ∀ p ∈ redistributeStage maxTotal d, MIN_ITEM_VALUE ≤ p.2 ∧ p.2 ≤ MAX_ITEM_VALUE := by
  intro p hp
  simp only [redistributeStage] at hp
  split at hp
  case isTrue hlow =>
    split at hp
    case isTrue hk =>
      obtain ⟨q, hq, rfl⟩ := List.mem_map.mp hp
      have hrem : (0 : ℚ) ≤ maxTotal - valuesSum d := by linarith
      have hextra : (0 : ℚ) ≤ (maxTotal - valuesSum d) /
          ((d.filter (fun r => decide (r.2 < MAX_ITEM_VALUE - 1/100))).length : ℚ) :=
        div_nonneg hrem (by positivity)
      by_cases hcase : q.2 < MAX_ITEM_VALUE - 1/100
      · simp only [if_pos hcase]
        refine ⟨le_min (by norm_num [MIN_ITEM_VALUE, MAX_ITEM_VALUE]) ?_, min_le_left _ _⟩
        have := (h q hq).1
        linarith
      · simp only [if_neg hcase]
        exact h q hq
    case isFalse => exact h p hp
  case isFalse => exact h p hp

/-- Every pair of `insertDesc x l` is `x` or a pair of `l`. -/
theorem mem_insertDesc {x q : ℕ × ℚ} {l : List (ℕ × ℚ)}
    (h : q ∈ insertDesc x l) : q = x ∨ q ∈ l := by
  induction l with
  | nil => simpa [insertDesc] using h
  | cons y rest ih =>
    unfold insertDesc at h
    split at h
    · rcases List.mem_cons.mp h with rfl | h
      · exact Or.inl rfl
      · exact Or.inr h
    · rcases List.mem_cons.mp h with rfl | h
      · exact Or.inr (List.mem_cons_self _ _)
      · rcases ih h with rfl | h
        · exact Or.inl rfl
        · exact Or.inr (List.mem_cons_of_mem _ h)

/-- The stable descending sort only permutes its input. -/
theorem mem_sortDescByValue {q : ℕ × ℚ} {l : List (ℕ × ℚ)}
    (h : q ∈ sortDescByValue l) : q ∈ l := by
  induction l with
  | nil => simpa [sortDescByValue] using h
  | cons x rest ih =>
    unfold sortDescByValue at h
    rcases mem_insertDesc h with rfl | h
    · exact List.mem_cons_self _ _
    · exact List.mem_cons_of_mem _ (ih h)

/-- Every reduction produced by the final-correction walk over values at
least `MIN_ITEM_VALUE` is nonnegative. -/
theorem correctionReductions_nonneg {l : List (ℕ × ℚ)}
    (h : ∀ q ∈ l, MIN_ITEM_VALUE ≤ q.2) :
    ∀ (e : ℚ), ∀ q ∈ correctionReductions e l, 0 ≤ q.2 := by
  induction l with
  | nil =>
    intro e q hq
    simp [correctionReductions] at hq
  | cons x rest ih =>
    intro e q hq
    obtain ⟨i, v⟩ := x
    unfold correctionReductions at hq
    split at hq
    · simp at hq
    case isFalse he =>
      rcases List.mem_cons.mp hq with rfl | hq
      · refine le_min (le_of_lt (not_le.mp he)) ?_
        have hv : MIN_ITEM_VALUE ≤ v := h (i, v) (List.mem_cons_self _ _)
        norm_num [MIN_ITEM_VALUE] at hv ⊢
        linarith
      · exact ih (fun r hr => h r (List.mem_cons_of_mem _ hr)) _ q hq

/-- A successful lookup returns a recorded pair. -/
theorem lookupRed_mem {l : List (ℕ × ℚ)} {i : ℕ} {r : ℚ}
    (h : lookupRed l i = some r) : (i, r) ∈ l := by
  induction l with
  | nil => simp [lookupRed] at h
  | cons x rest ih =>
    obtain ⟨j, s⟩ := x
    unfold lookupRed at h
    split at h
    case isTrue hj =>
      obtain rfl := Option.some.inj h
      subst hj
      exact List.mem_cons_self _ _
    case isFalse =>
      exact List.mem_cons_of_mem _ (ih h)

/-- Applying nonnegative reductions (clamped below at `MIN_ITEM_VALUE`)
preserves the per-item bounds. -/
theorem mem_applyReductions_bounds {reds : List (ℕ × ℚ)}
    (hr : ∀ q ∈ reds, 0 ≤ q.2) :
    ∀ (k : ℕ) (d : List (String × ℚ)),
      (∀ p ∈ d, MIN_ITEM_VALUE ≤ p.2 ∧ p.2 ≤ MAX_ITEM_VALUE) →
      ∀ p ∈ applyReductions reds k d, MIN_ITEM_VALUE ≤ p.2 ∧ p.2 ≤ MAX_ITEM_VALUE := by
  intro k d
  induction d generalizing k with
  | nil =>
    intro _ p hp
    simp [applyReductions] at hp
  | cons x rest ih =>
    intro h p hp
    unfold applyReductions at hp
    rcases List.mem_cons.mp hp with rfl | hp
    · cases hl : lookupRed reds k with
      | none =>
        simp only [hl]
        exact h x (List.mem_cons_self _ _)
      | some r =>
        simp only [hl]
        have hr0 : 0 ≤ r := hr (k, r) (lookupRed_mem hl)
        refine ⟨le_max_left _ _, ?_⟩
        refine max_le (by norm_num [MIN_ITEM_VALUE, MAX_ITEM_VALUE]) ?_
        have := (h x (List.mem_cons_self _ _)).2
        linarith [sub_le_self x.2 hr0]
    · exact ih (k + 1) (fun q hq => h q (List.mem_cons_of_mem _ hq)) p hp

/-- The final-correction stage preserves the per-item bounds. -/
theorem mem_finalCorrectionStage_bounds {maxTotal : ℚ} {d : List (String × ℚ)}
    (h : ∀ q ∈ d, MIN_ITEM_VALUE ≤ q.2 ∧ q.2 ≤ MAX_ITEM_VALUE) :
    ∀ p ∈ finalCorrectionStage maxTotal d, MIN_ITEM_VALUE ≤ p.2 ∧ p.2 ≤ MAX_ITEM_VALUE := by
  intro p hp
  simp only [finalCorrectionStage] at hp
  split at hp
  case isTrue =>
    refine mem_applyReductions_bounds ?_ 0 d h p hp
    intro q hq
    refine correctionReductions_nonneg ?_ _ q hq
    intro r hr
    obtain ⟨s, hs, rfl⟩ := List.mem_map.mp (mem_sortDescByValue hr)
    exact (h s.2 (List.of_mem_zip hs).2).1
  case isFalse => exact h p hp

/-- Two-decimal rounding keeps a value inside
`[MIN_ITEM_VALUE, MAX_ITEM_VALUE]` (both endpoints are two-decimal
numbers). -/
theorem round2_bounds {v : ℚ} (h : MIN_ITEM_VALUE ≤ v ∧ v ≤ MAX_ITEM_VALUE) :
    MIN_ITEM_VALUE ≤ round2 v ∧ round2 v ≤ MAX_ITEM_VALUE := by
  obtain ⟨h1, h2⟩ := h
  norm_num [MIN_ITEM_VALUE, MAX_ITEM_VALUE] at h1 h2 ⊢
  unfold round2
  constructor
  · rw [le_div_iff (by norm_num : (0:ℚ) < 100)]
    have hfl : (50 : ℤ) ≤ ⌊v * 100 + 1/2⌋ := Int.le_floor.mpr (by push_cast; linarith)
    calc (1 : ℚ)/2 * 100 = ((50 : ℤ) : ℚ) := by norm_num
      _ ≤ (⌊v * 100 + 1/2⌋ : ℚ) := by exact_mod_cast hfl
  · rw [div_le_iff (by norm_num : (0:ℚ) < 100)]
    have hfl : ⌊v * 100 + 1/2⌋ ≤ (800 : ℤ) := by
      have := Int.floor_le_floor (α := ℚ) (show v * 100 + 1/2 ≤ 1601/2 by linarith)
      simpa using le_trans this (by norm_num)
    calc (⌊v * 100 + 1/2⌋ : ℚ) ≤ ((800 : ℤ) : ℚ) := by exact_mod_cast hfl
      _ ≤ 8 * 100 := by norm_num

/-- With at least two billable items, every value produced by
`distributeBillableItems` lies in `[MIN_ITEM_VALUE, MAX_ITEM_VALUE]`. -/
theorem distributeBillableItems_bounds {billableItems : List LineItemInput}
    {maxTotal : ℚ} {weights : List ℚ} (h2 : 2 ≤ billableItems.length) :
    ∀ d ∈ distributeBillableItems billableItems maxTotal weights,
      MIN_ITEM_VALUE ≤ d.newCustomsValue ∧ d.newCustomsValue ≤ MAX_ITEM_VALUE := by
  intro d hd
  match billableItems, h2, hd with
  | a :: b :: rest, _, hd =>
    simp only [distributeBillableItems] at hd
    obtain ⟨p, hp, rfl⟩ := List.mem_map.mp hd
    refine round2_bounds ?_
    refine mem_finalCorrectionStage_bounds ?_ p hp
    intro q hq
    refine mem_redistributeStage_bounds ?_ q hq
    intro r hr
    refine mem_scaleStage_bounds ?_ r hr
    intro s hs
    exact mem_initialDistribution_bounds hs

/-- C9: with at least two billable items and one weight per billable item,
every non-complimentary entry of `distributeCustomsValues` has a value in
`[MIN_ITEM_VALUE, MAX_ITEM_VALUE] = [0.5, 8]`, for every cap — the per-item
floor is enforced unconditionally, even when `cap / billableCount < 0.5`. -/
theorem distributeCustomsValues_values_in_range (items : List LineItemInput)
    (maxTotal : ℚ) (weights : List ℚ)
    (h2 : 2 ≤ (billableOf items).length)
    (hlen : weights.length = (billableOf items).length) :
    ∀ d ∈ distributeCustomsValues items maxTotal weights,
      d.isComplimentary = false →
      MIN_ITEM_VALUE ≤ d.newCustomsValue ∧ d.newCustomsValue ≤ MAX_ITEM_VALUE := by
  intro d hd hnc
  simp only [distributeCustomsValues] at hd
  split at hd
  · simp at hd
  · split at hd
    case isTrue hb =>
      exfalso
      omega
    case isFalse =>
      rcases List.mem_append.mp hd with hmem | hmem
      · exact distributeBillableItems_bounds h2 d hmem
      · obtain ⟨i, _, rfl⟩ := List.mem_map.mp hmem
        simp at hnc

/-- C9 (witness): on two billable items with cap 25 both entries evaluate to
8, a member of the output, and the theorem yields its bounds. -/
theorem distributeCustomsValues_values_in_range_witness :
    (⟨"a", 8, false⟩ : CustomsDistribution) ∈ distributeCustomsValues itemsTwo 25 [1, 2] ∧
    (MIN_ITEM_VALUE ≤ (8 : ℚ) ∧ (8 : ℚ) ≤ MAX_ITEM_VALUE) := by
  have hmem : (⟨"a", 8, false⟩ : CustomsDistribution) ∈
      distributeCustomsValues itemsTwo 25 [1, 2] := by
    norm_num [itemsTwo, distributeCustomsValues, distributeBillableItems, billableOf,
      complimentaryOf, initialDistribution, initialValue, valuesSum, scaleStage,
      redistributeStage, finalCorrectionStage, sortDescByValue, insertDesc,
      correctionReductions, lookupRed, applyReductions, round2,
      MIN_ITEM_VALUE, MAX_ITEM_VALUE]
  refine ⟨hmem, ?_⟩
  exact distributeCustomsValues_values_in_range itemsTwo 25 [1, 2]
    (by norm_num [billableOf, itemsTwo]) (by norm_num [billableOf, itemsTwo])
    ⟨"a", 8, false⟩ hmem rfl

/-! ## C10 — shape of the distributor's output -/

/-- A map whose function preserves the first component preserves the list of
first components. -/
theorem map_fst_of_fst_preserving (f : String × ℚ → String × ℚ)
    (hf : ∀ p, (f p).1 = p.1) (d : List (String × ℚ)) :
    (d.map f).map Prod.fst = d.map Prod.fst := by
  induction d with
  | nil => rfl
  | cons x rest ih => simp [hf, ih]

/-- The scale-down stage preserves the line-item ids, in order. -/
theorem scaleStage_map_fst (maxTotal : ℚ) (d : List (String × ℚ)) :
    (scaleStage maxTotal d).map Prod.fst = d.map Prod.fst := by
  simp only [scaleStage]
  split
  · apply map_fst_of_fst_preserving
    intro p
    rfl
  · rfl

/-- The redistribution stage preserves the line-item ids, in order. -/
theorem redistributeStage_map_fst (maxTotal : ℚ) (d : List (String × ℚ)) :
    (redistributeStage maxTotal d).map Prod.fst = d.map Prod.fst := by
  simp only [redistributeStage]
  split
  · split
    · apply map_fst_of_fst_preserving
      intro p
      dsimp only
      split <;> rfl
    · rfl
  · rfl

/-- Applying reductions preserves the line-item ids, in order. -/
theorem applyReductions_map_fst (reds : List (ℕ × ℚ)) :
    ∀ (k : ℕ) (d : List (String × ℚ)),
      (applyReductions reds k d).map Prod.fst = d.map Prod.fst := by
  intro k d
  induction d generalizing k with
  | nil => rfl
  | cons x rest ih =>
    unfold applyReductions
    cases hl : lookupRed reds k <;> simp [hl, ih]

/-- The final-correction stage preserves the line-item ids, in order. -/
theorem finalCorrectionStage_map_fst (maxTotal : ℚ) (d : List (String × ℚ)) :
    (finalCorrectionStage maxTotal d).map Prod.fst = d.map Prod.fst := by
  simp only [finalCorrectionStage]
  split
  · exact applyReductions_map_fst _ 0 d
  · rfl

/-- Formatting a working distribution keeps its ids, in order. -/
theorem map_lineItemId_format (d : List (String × ℚ)) :
    (d.map (fun p =>
      ({ lineItemId := p.1
         newCustomsValue := round2 p.2
         isComplimentary := false } : CustomsDistribution))).map
      CustomsDistribution.lineItemId = d.map Prod.fst := by
  induction d with
  | nil => rfl
  | cons x rest ih => simp [ih]

/-- The initial distribution lists exactly the ids of its items when one
weight is supplied per item. -/
theorem initialDistribution_map_fst {items : List LineItemInput}
    {weights : List ℚ} (maxTotal : ℚ) (hlen : weights.length = items.length) :
    (initialDistribution items weights maxTotal).map Prod.fst =
      items.map LineItemInput.id := by
  simp only [initialDistribution]
  rw [List.map_map]
  have h1 : ((items.zip weights).map Prod.fst).map LineItemInput.id =
      items.map LineItemInput.id := by
    rw [List.map_fst_zip _ _ (le_of_eq hlen.symm)]
  rw [← h1, List.map_map]
  rfl

/-- The function `distributeBillableItems` emits exactly one entry per billable item, with
the same ids in order, when one weight is supplied per item. -/
theorem distributeBillableItems_map_id {billableItems : List LineItemInput}
    {maxTotal : ℚ} {weights : List ℚ} (hlen : weights.length = billableItems.length) :
    (distributeBillableItems billableItems maxTotal weights).map
      CustomsDistribution.lineItemId = billableItems.map LineItemInput.id := by
  match billableItems with
  | [item] => simp [distributeBillableItems]
  | [] =>
    have hw : weights = [] := List.length_eq_zero.mp hlen
    subst hw
    simp only [distributeBillableItems]
    rw [map_lineItemId_format, finalCorrectionStage_map_fst, redistributeStage_map_fst,
      scaleStage_map_fst]
    simp [initialDistribution]
  | a :: b :: rest =>
    simp only [distributeBillableItems]
    rw [map_lineItemId_format, finalCorrectionStage_map_fst, redistributeStage_map_fst,
      scaleStage_map_fst, initialDistribution_map_fst _ hlen]

/-- No entry of `distributeBillableItems` is marked complimentary. -/
theorem distributeBillableItems_not_complimentary {billableItems : List LineItemInput}
    {maxTotal : ℚ} {weights : List ℚ} :
    ∀ d ∈ distributeBillableItems billableItems maxTotal weights,
      d.isComplimentary = false := by
  intro d hd
  match billableItems, hd with
  | [item], hd =>
    simp only [distributeBillableItems, List.mem_singleton] at hd
    subst hd
    rfl
  | [], hd =>
    simp [distributeBillableItems, initialDistribution, scaleStage, valuesSum,
      redistributeStage, finalCorrectionStage, applyReductions, correctionReductions,
      sortDescByValue] at hd
  | a :: b :: rest, hd =>
    simp only [distributeBillableItems] at hd
    obtain ⟨p, _, rfl⟩ := List.mem_map.mp hd
    rfl

/-- The complimentary sublist is the negated filter of the billable one. -/
theorem complimentaryOf_eq_not_billable (items : List LineItemInput) :
    complimentaryOf items = items.filter (fun i => !(decide (0 < i.price))) := by
  unfold complimentaryOf
  refine List.filter_congr (fun i _ => ?_)
  rw [← decide_not]
  exact decide_eq_decide.mpr not_lt.symm

/-- C10: `distributeCustomsValues` returns exactly one entry per input line
item (as a permutation of ids: the billable block first, then the
complimentary block); its length equals the input length; every entry
marked complimentary carries the value `0`; and every item with
`price ≤ 0` yields the entry `(id, 0, complimentary)`. -/
theorem distributeCustomsValues_shape (items : List LineItemInput) (maxTotal : ℚ)
    (weights : List ℚ) (hlen : weights.length = (billableOf items).length) :
    (distributeCustomsValues items maxTotal weights).length = items.length ∧
    ((distributeCustomsValues items maxTotal weights).map
        CustomsDistribution.lineItemId).Perm (items.map LineItemInput.id) ∧
    (∀ d ∈ distributeCustomsValues items maxTotal weights,
      d.isComplimentary = true → d.newCustomsValue = 0) ∧
    (∀ item ∈ items, item.price ≤ 0 →
      ({ lineItemId := item.id, newCustomsValue := 0, isComplimentary := true } :
        CustomsDistribution) ∈ distributeCustomsValues items maxTotal weights) := by
  have hperm : ((distributeCustomsValues items maxTotal weights).map
      CustomsDistribution.lineItemId).Perm (items.map LineItemInput.id) := by
    simp only [distributeCustomsValues]
    split
    case isTrue hnil =>
      obtain rfl := List.length_eq_zero.mp hnil
      rfl
    case isFalse =>
      split
      case isTrue hb =>
        have : (items.map (fun item =>
            ({ lineItemId := item.id, newCustomsValue := 0, isComplimentary := true } :
              CustomsDistribution))).map CustomsDistribution.lineItemId =
            items.map LineItemInput.id := by
          rw [List.map_map]
          rfl
        rw [this]
      case isFalse =>
        rw [List.map_append, distributeBillableItems_map_id hlen]
        have hcompl : ((complimentaryOf items).map (fun item =>
            ({ lineItemId := item.id, newCustomsValue := 0, isComplimentary := true } :
              CustomsDistribution))).map CustomsDistribution.lineItemId =
            (complimentaryOf items).map LineItemInput.id := by
          rw [List.map_map]
          rfl
        rw [hcompl, ← List.map_append]
        refine List.Perm.map _ ?_
        rw [billableOf, complimentaryOf_eq_not_billable]
        exact List.filter_append_perm _ items
  refine ⟨?_, hperm, ?_, ?_⟩
  · have := hperm.length_eq
    simpa using this
  · intro d hd hc
    simp only [distributeCustomsValues] at hd
    split at hd
    · simp at hd
    · split at hd
      · obtain ⟨i, _, rfl⟩ := List.mem_map.mp hd
        rfl
      · rcases List.mem_append.mp hd with hmem | hmem
        · have := distributeBillableItems_not_complimentary d hmem
          rw [hc] at this
          cases this
        · obtain ⟨i, _, rfl⟩ := List.mem_map.mp hmem
          rfl
  · intro item hitem hprice
    simp only [distributeCustomsValues]
    split
    case isTrue hnil =>
      obtain rfl := List.length_eq_zero.mp hnil
      cases hitem
    case isFalse =>
      have hmemc : item ∈ complimentaryOf items := by
        unfold complimentaryOf
        exact List.mem_filter.mpr ⟨hitem, by simpa using hprice⟩
      split
      case isTrue hb =>
        exact List.mem_map_of_mem _ hitem
      case isFalse =>
        exact List.mem_append_right _ (List.mem_map_of_mem _ hmemc)

/-- C10 (witness): on one billable and one complimentary item the output has
length 2 and contains the complimentary entry `("2", 0, true)`. -/
theorem distributeCustomsValues_shape_witness :
    (distributeCustomsValues itemsMixed 25 [1]).length = 2 ∧
    ({ lineItemId := "2", newCustomsValue := 0, isComplimentary := true } :
      CustomsDistribution) ∈ distributeCustomsValues itemsMixed 25 [1] := by
  have h := distributeCustomsValues_shape itemsMixed 25 [1]
    (by norm_num [billableOf, itemsMixed])
  refine ⟨?_, ?_⟩
  · rw [h.1]; rfl
  · exact h.2.2.2 ⟨"2", "FREE-GIFT", 0, 1⟩ (by norm_num [itemsMixed]) (by norm_num)

/-! ## C2 — behaviour of the orchestrator after quota exhaustion -/

/-- The per-record quota gate is exhausted beyond recovery: `canProceed(50)`
refuses and the offered wait is absent, zero (falsy) or above the
two-minute ceiling, so `waitForCredits(50, 120000)` refuses too. -/
def quotaBlocked (q : QuotaState) (now : ℤ) : Prop :=
  (q.canProceed now 50).ok = false ∧
  ∀ w, (q.canProceed now 50).waitMs = some w → w = 0 ∨ 120000 < w

/-- Under a blocked quota the bounded wait refuses and changes nothing. -/
theorem waitForCredits_blocked {q : QuotaState} {now : ℤ}
    (hok : (q.canProceed now 50).ok = false) {w : ℤ}
    (hwm : (q.canProceed now 50).waitMs = some w) (hgt : 120000 < w) :
    q.waitForCredits now 50 120000 = (false, q, now) := by
  have hne : ¬ w = 0 := by omega
  simp only [QuotaState.waitForCredits, hok, hwm, Bool.false_eq_true, if_false]
  simp [hne, hgt]

/-- Under a blocked quota the per-order loop processes nothing: it breaks at
its first record, leaving the state untouched. -/
theorem runOrders_blocked (cfg : Config) (oracle : Order → ProcOracle)
    (st : LoopState) (l : List Order) (hb : quotaBlocked st.q st.now) :
    runOrders cfg oracle st l = st := by
  obtain ⟨hok, hw⟩ := hb
  cases l with
  | nil => rfl
  | cons o rest =>
    simp only [runOrders, hok, Bool.false_eq_true, if_false]
    cases hwm : (st.q.canProceed st.now 50).waitMs with
    | none => simp
    | some w =>
      rcases hw w hwm with rfl | hgt
      · simp
      · have hne : w ≠ 0 := by omega
        simp [hne, waitForCredits_blocked hok hwm hgt]

/-- Under a blocked quota the page loop still consumes every page — counting
all their records as queried — but processes none of them. -/
theorem runPages_blocked (cfg : Config) (oracle : Order → ProcOracle)
    (st : LoopState) (pages : List (List Order)) (hb : quotaBlocked st.q st.now) :
    runPages cfg oracle st pages =
      { st with acc := { st.acc with ordersQueried :=
          st.acc.ordersQueried + (pages.map List.length).sum } } := by
  induction pages generalizing st with
  | nil => rfl
  | cons page rest ih =>
    simp only [runPages]
    rw [runOrders_blocked cfg oracle
        { st with acc := { st.acc with ordersQueried := st.acc.ordersQueried + page.length } }
        page hb,
      ih { st with acc :=
        { st.acc with ordersQueried := st.acc.ordersQueried + page.length } } hb]
    simp [add_assoc]

/-- Under a blocked quota the filter loop still fetches every page of every
remaining filter, processing none of their records. -/
theorem runFilters_blocked (cfg : Config) (oracle : Order → ProcOracle)
    (st : LoopState) (filters : List (List (List Order)))
    (hb : quotaBlocked st.q st.now) :
    runFilters cfg oracle st filters =
      { st with acc := { st.acc with ordersQueried := st.acc.ordersQueried +
          (filters.map (fun pages => (pages.map List.length).sum)).sum } } := by
  induction filters generalizing st with
  | nil => rfl
  | cons pages rest ih =>
    simp only [runFilters]
    rw [runPages_blocked cfg oracle st pages hb,
      ih { st with acc := { st.acc with ordersQueried :=
        st.acc.ordersQueried + (pages.map List.length).sum } } hb]
    simp [add_assoc]

/-- The quota check on `qExhausted` at time `0`: refused, with an offered
wait of 270 seconds — far above the two-minute ceiling. -/
theorem qExhausted_canProceed :
    qExhausted.canProceed 0 50 = ⟨false, some 270000, some "insufficient_credits"⟩ := by
  have hceil : ⌈(2691/10 : ℚ)⌉ = 270 := by
    rw [Int.ceil_eq_iff]
    constructor <;> norm_num
  norm_num [hceil, QuotaState.canProceed, QuotaState.canMakeRequest,
    QuotaState.getRequestsInWindow, QuotaState.replenished, jsFloor, jsCeil,
    qExhausted, MAX_CREDITS, MIN_CREDITS_BUFFER, MAX_REQUESTS_PER_WINDOW,
    MIN_REQUESTS_BUFFER, REQUEST_WINDOW_MS, REPLENISH_RATE]

/-- The state `qExhausted` is blocked at time `0`. -/
theorem qExhausted_blocked : quotaBlocked qExhausted 0 := by
  refine ⟨by rw [qExhausted_canProceed], fun w hw => ?_⟩
  rw [qExhausted_canProceed] at hw
  obtain rfl := (Option.some.inj hw).symm
  right
  norm_num

/-- The loop state right after `orderTR1` was processed at a 20000-credit
cost: one order queried and processed, quota exhausted. -/
def stExhausted : LoopState :=
  ⟨qExhausted, 0, ⟨1, 1, 0, 0, [], 20000⟩, [500]⟩

/-- C2 (amended): once the quota gate is blocked (the check refuses with an
offered wait of zero or above the two-minute ceiling), the orchestrator
processes no further record from any remaining page or filter: the
processed/skipped/error counters, credits used, collected dates, quota
state and clock are all unchanged; however, every remaining page of every
remaining filter is still fetched, so only the queried count still grows —
by the total size of every remaining page.  And the batch ends with status
`completed`, not `failed`. -/
theorem processBatch_graceful_on_exhaustion :
    (∀ (cfg : Config) (oracle : Order → ProcOracle) (st : LoopState)
        (filters : List (List (List Order))),
      quotaBlocked st.q st.now →
      runFilters cfg oracle st filters =
        { st with acc := { st.acc with ordersQueried := st.acc.ordersQueried +
            (filters.map (fun pages => (pages.map List.length).sum)).sum } }) ∧
    (∀ (cfg : Config) (oracle : Order → ProcOracle)
        (filters : List (List (List Order))) (q0 : QuotaState) (now0 : ℤ)
        (batchId : String) (cursor0 : Option CursorRow),
      (processBatch cfg oracle filters q0 now0 batchId cursor0).status = .completed) := by
  constructor
  · exact runFilters_blocked
  · intro cfg oracle filters q0 now0 batchId cursor0
    rfl

/-- C2 (amended, witness): from the exhausted mid-batch state, a remaining
filter holding one page with one order is still fetched (queried count
grows to 2) while nothing else changes; and a concrete batch ends
`completed`. -/
theorem processBatch_graceful_on_exhaustion_witness :
    runFilters cfgStd oracleBigCost stExhausted [[[orderTR3]]] =
      { stExhausted with acc := { stExhausted.acc with ordersQueried :=
          stExhausted.acc.ordersQueried + 1 } } ∧
    (processBatch cfgStd oracleBigCost [[[orderTR1]]] ⟨4004, 0, 0, []⟩ 0 "batch-3"
        none).status = .completed := by
  constructor
  · have h := processBatch_graceful_on_exhaustion.1 cfgStd oracleBigCost stExhausted
      [[[orderTR3]]] qExhausted_blocked
    simpa using h
  · exact processBatch_graceful_on_exhaustion.2 cfgStd oracleBigCost [[[orderTR1]]]
      ⟨4004, 0, 0, []⟩ 0 "batch-3" none

/-- C2 (counterexample): a batch in which the very first record's processing
exhausts the quota (cost 20000).  The run truncated at the exhaustion point
shows the counts at exhaustion: 1 queried, 1 processed.  The full run — one
more page in the same filter and a second filter — still ends `completed`
with 1 processed, but its summary counts 3 queried records: the two pages
fetched after exhaustion are still consumed and counted, so the summary
does not reflect only the records seen before exhaustion. -/
theorem processBatch_counts_grow_after_exhaustion :
    (processBatch cfgStd oracleBigCost [[[orderTR1], [orderTR2]], [[orderTR3]]]
        ⟨4004, 0, 0, []⟩ 0 "batch-3" none).acc = ⟨3, 1, 0, 0, [], 20000⟩ ∧
    (processBatch cfgStd oracleBigCost [[[orderTR1]]]
        ⟨4004, 0, 0, []⟩ 0 "batch-3" none).acc = ⟨1, 1, 0, 0, [], 20000⟩ ∧
    (processBatch cfgStd oracleBigCost [[[orderTR1], [orderTR2]], [[orderTR3]]]
        ⟨4004, 0, 0, []⟩ 0 "batch-3" none).status = .completed := by
  have heff : effCountry ⟨some "TR", none⟩ = some "TR" := rfl
  have hproc : processOrder cfgStd orderTR1 [1] (Except.ok 20000) (Except.ok 0) =
      (⟨"o1", "N1", .processed, none, 20000⟩,
       [RemoteCall.updateLineItems "o1" [("li1", 8)],
        RemoteCall.addTag "o1" "customs-processed"]) := by
    norm_num [processOrder, heff, hasTag, hasBillableItems, getBillableLineItems,
      calculateEffectiveMaxTotal, distributeCustomsValues, distributeBillableItems,
      billableOf, complimentaryOf, nonComplimentarySum, round2, orderTR1, cfgStd,
      MIN_ITEM_VALUE, MAX_ITEM_VALUE, skipResult, errorResult]
  have hfreshCan : QuotaState.canProceed ⟨4004, 0, 0, []⟩ 0 50 = ⟨true, none, none⟩ := by
    norm_num [QuotaState.canProceed, QuotaState.canMakeRequest,
      QuotaState.getRequestsInWindow, QuotaState.replenished, jsFloor, jsCeil,
      MAX_CREDITS, MIN_CREDITS_BUFFER, MAX_REQUESTS_PER_WINDOW, MIN_REQUESTS_BUFFER,
      REQUEST_WINDOW_MS, REPLENISH_RATE]
  have horder : orderTR1.order_date = some 500 := rfl
  have hupd : QuotaState.updateFromResponse ⟨4004, 0, 0, []⟩ 0 20000 none = qExhausted := by
    norm_num [QuotaState.updateFromResponse, QuotaState.replenished, jsFloor,
      qExhausted, MAX_CREDITS, REPLENISH_RATE]
  have hrun1 : ∀ (k : ℕ),
      runOrders cfgStd oracleBigCost ⟨⟨4004, 0, 0, []⟩, 0, ⟨k, 0, 0, 0, [], 0⟩, []⟩
        [orderTR1] = ⟨qExhausted, 0, ⟨k, 1, 0, 0, [], 20000⟩, [500]⟩ := by
    intro k
    simp [runOrders, hfreshCan, oracleBigCost, hproc, hupd, tallyOrder, horder]
  have hblocked : ∀ (acc : BatchAcc) (pd : List ℤ) (l : List Order),
      runOrders cfgStd oracleBigCost ⟨qExhausted, 0, acc, pd⟩ l =
        ⟨qExhausted, 0, acc, pd⟩ :=
    fun acc pd l => runOrders_blocked _ _ ⟨qExhausted, 0, acc, pd⟩ l qExhausted_blocked
  refine ⟨?_, ?_, rfl⟩
  · show (processBatch _ _ _ _ _ _ _).acc = _
    simp only [processBatch, runFilters, runPages, QuotaState.reset, MAX_CREDITS]
    norm_num [hrun1, hblocked]
  · show (processBatch _ _ _ _ _ _ _).acc = _
    simp only [processBatch, runFilters, runPages, QuotaState.reset, MAX_CREDITS]
    norm_num [hrun1]
